import Mathlib

/-!
# CVsGolang: the XNOR demonstration (`b.c`) and pass-by-value (`c_examples.c`)

A shallow embedding of the two C programs.

* A C `int` is a Lean `Int` lying in the 32-bit two's-complement range
  (`isInt32`); arithmetic that can leave the range is wrapped with `wrap32`.
* Standard output is a `String` that each `printf` appends to.
* Operations that C leaves undefined (a shift by an amount outside `[0,31]`,
  an access through an invalid address) return `none`.
-/

namespace CVsGolang

/-! ## C integers and `printf` -/

/-- Smallest value of a 32-bit `int`. -/
def INT_MIN : Int := -2147483648

/-- Largest value of a 32-bit `int`. -/
def INT_MAX : Int := 2147483647

/-- The value is representable as a 32-bit signed `int`. -/
def isInt32 (x : Int) : Prop := INT_MIN ≤ x ∧ x ≤ INT_MAX

instance (x : Int) : Decidable (isInt32 x) := inferInstanceAs (Decidable (_ ∧ _))

/-- Reduction of an integer to the 32-bit two's-complement range. -/
def wrap32 (x : Int) : Int := (x + 2147483648) % 4294967296 - 2147483648

/-- The text `printf` produces for a `%d` conversion. -/
def fmt_d (x : Int) : String := toString x

/-- C `x >> n` for an `int` left operand: undefined unless `0 ≤ n < 32`;
otherwise the arithmetic shift (sign-propagating, as on two's-complement
targets). -/
def shr (x n : Int) : Option Int :=
  if 0 ≤ n ∧ n < 32 then some (x >>> n.toNat) else none

/-- C `x & y` on `int`. -/
def band (x y : Int) : Int := Int.land x y

/-! ## `b.c` -/

namespace B

/-- The function `int xnor(int a, int b)` with body `return a==b;`: the
comparison `==` yields the `int` 1 or 0. -/
def xnor (a b : Int) : Int := if a = b then 1 else 0

/-- State threaded through the rendering loop of `main`: the text written to
standard output so far, and (ghost) the shift amounts evaluated so far, one
per iteration. -/
structure Render where
  out : String
  shifts : List Int
deriving DecidableEq

/-- The loop `for (int i = 31; i >= 0; i--) printf("%d", (result >> i) & 1);`
entered with loop variable `i`. The decrement `i--` is only reached with
`0 ≤ i`, so it stays in the `int` range and needs no wrapping. The function is
total: the recursion is well-founded on `i + 1`. -/
def renderLoop (result : Int) (i : Int) (st : Render) : Option Render :=
  if 0 ≤ i then
    match shr result i with
    | some v => renderLoop result (i - 1) ⟨st.out ++ fmt_d (band v 1), st.shifts ++ [i]⟩
    | none => none
  else some st
termination_by (i + 1).toNat
decreasing_by omega

/-- The `main` of `b.c`: the text written to standard output and the exit code. -/
def main : Option (String × Int) :=
  let a : Int := 10
  let b : Int := 10
  let result := xnor a b
  let out := "XNOR of " ++ fmt_d a ++ " and " ++ fmt_d b ++ " is: " ++ fmt_d result ++ "\n"
  let out := out ++ "Binary representation of result: "
  match renderLoop result 31 ⟨out, []⟩ with
  | some st => some (st.out ++ "\n", 0)
  | none => none

end B

/-! ## `c_examples.c`: pass by value -/

namespace CExamples

/-- Memory holding `int` objects; an address is an index. -/
abbrev Memory := List Int

/-- Read the `int` at address `p`. -/
def load (m : Memory) (p : Nat) : Option Int := m[p]?

/-- Write the `int` at address `p`. -/
def store (m : Memory) (p : Nat) (v : Int) : Option Memory :=
  if p < m.length then some (m.set p v) else none

/-- The statement `x++;` for the `int` object at address `p`. -/
def postIncr (m : Memory) (p : Nat) : Option Memory :=
  match load m p with
  | some v => store m p (wrap32 (v + 1))
  | none => none

/-- The function `void increment1(int inc)` with body `inc++;`: the parameter
is a fresh object initialised with the value of the argument and released on
return. -/
def increment1 (m : Memory) (inc : Int) : Option Memory :=
  let p := m.length
  match postIncr (m ++ [inc]) p with
  | some m1 => some (m1.take p)
  | none => none

/-- The function `void increment2(int *inc)` with body `(*inc)++;`: the
argument is an address. -/
def increment2 (m : Memory) (inc : Nat) : Option Memory :=
  postIncr m inc

/-- The function `cPassByValue`, run on memory `m` with `out` already
written; returns the memory after the local `count` is released and the text written. -/
def cPassByValue (m : Memory) (out : String) : Option (Memory × String) :=
  let count := m.length
  let m := m ++ [10]
  let out := out ++ "\nC Pass by Value:\n"
  match load m count with
  | none => none
  | some v0 =>
    let out := out ++ ("Before: count = " ++ fmt_d v0 ++ "\n")
    match increment1 m v0 with
    | none => none
    | some m =>
      match load m count with
      | none => none
      | some v1 =>
        let out := out ++ ("After increment1: count = " ++ fmt_d v1 ++ "\n")
        match increment2 m count with
        | none => none
        | some m =>
          match load m count with
          | none => none
          | some v2 =>
            let out := out ++ ("After increment2: count = " ++ fmt_d v2 ++ "\n")
            some (m.take count, out)

end CExamples

/-! ## Vocabulary of the specification -/

/-- Bit `j` of the 32-bit two's-complement representation of `x`, i.e. of the
unsigned value `x mod 2^32`. -/
def bit32 (x : Int) (j : Nat) : Int := x % 4294967296 / 2 ^ j % 2

/-- Value of a string of binary digits read as an unsigned numeral, most
significant digit first. -/
def binaryValue (cs : List Char) : Int :=
  cs.foldl (fun acc c => 2 * acc + (if c = '1' then 1 else 0)) 0

/-- The character for one binary digit. -/
def bitChar (d : Int) : Char := if d = 1 then '1' else '0'

/-- Digits `n-1` down to `0` of `x`, most significant first. -/
def msbChars (x : Int) : Nat → List Char
  | 0 => []
  | n + 1 => bitChar (x / 2 ^ n % 2) :: msbChars x n

/-- The integers `n-1, n-2, ..., 0`. -/
def countdown : Nat → List Int
  | 0 => []
  | n + 1 => (n : Int) :: countdown n

/-! ## Lemmas on the C operations -/

theorem land_one_eq_emod (x : Int) : Int.land x 1 = x % 2 := by
  cases x with
  | ofNat m =>
    show Int.land (Int.ofNat m) (Int.ofNat 1) = _
    simp [Int.land, Nat.and_one_is_mod]
  | negSucc m =>
    show Int.land (Int.negSucc m) (Int.ofNat 1) = _
    simp only [Int.land]
    have h : Nat.ldiff 1 m = (m + 1) % 2 := by
      apply Nat.eq_of_testBit_eq
      intro i
      rw [Nat.testBit_ldiff]
      cases i with
      | zero =>
        simp [Nat.testBit_zero]
        rcases Nat.mod_two_eq_zero_or_one m with h | h
        · simp [h, Nat.succ_mod_two_eq_zero_iff]; omega
        · simp [h, Nat.succ_mod_two_eq_zero_iff]
      | succ j =>
        have hlt : (m + 1) % 2 < 2 := Nat.mod_lt _ (by decide)
        have h1 : Nat.testBit 1 (j + 1) = false := by
          simp [Nat.testBit_succ]
        have h2 : Nat.testBit ((m + 1) % 2) (j + 1) = false := by
          apply Nat.testBit_lt_two_pow
          have := @Nat.one_le_two_pow j
          rw [Nat.pow_succ]
          omega
        simp [h1, h2]
    rw [h, Int.negSucc_eq]
    omega

theorem shr_of_lt (x : Int) (n : Nat) (hn : n < 32) :
    shr x (n : Int) = some (x / 2 ^ n) := by
  have h : (0 : Int) ≤ (n : Int) ∧ (n : Int) < 32 := ⟨by omega, by omega⟩
  simp only [shr, h, and_self, if_true, Int.toNat_ofNat, Int.shiftRight_eq_div_pow]
  norm_cast

theorem fmt_d_bit (v : Int) : fmt_d (band v 1) = String.mk [bitChar (v % 2)] := by
  unfold band
  rw [land_one_eq_emod]
  rcases Int.emod_two_eq_zero_or_one v with h | h
  · rw [h]; decide
  · rw [h]; decide

theorem renderLoop_spec (result : Int) (n : Nat) (hn : n ≤ 32) (st : B.Render) :
    B.renderLoop result ((n : Int) - 1) st
      = some ⟨st.out ++ String.mk (msbChars result n), st.shifts ++ countdown n⟩ := by
  induction n generalizing st with
  | zero =>
    rw [B.renderLoop]
    have e : st.out ++ String.mk (msbChars result 0) = st.out := by
      apply String.ext; simp [msbChars]
    simp [e, countdown]
  | succ k ih =>
    rw [B.renderLoop]
    have hk : (0 : Int) ≤ ((k + 1 : Nat) : Int) - 1 := by omega
    have e1 : ((k + 1 : Nat) : Int) - 1 = (k : Int) := by omega
    rw [if_pos hk, e1, shr_of_lt result k (by omega)]
    simp only []
    rw [ih (by omega), fmt_d_bit]
    have e : st.out ++ String.mk [bitChar (result / 2 ^ k % 2)] ++ String.mk (msbChars result k)
        = st.out ++ String.mk (msbChars result (k + 1)) := by
      apply String.ext; simp [msbChars]
    simp [e, countdown]

theorem emod_pow_succ (x : Int) (n : Nat) :
    x % 2 ^ (n + 1) = x / 2 ^ n % 2 * 2 ^ n + x % 2 ^ n := by
  have hp : (0 : Int) < 2 ^ n := by positivity
  have h1 := Int.emod_add_ediv x (2 ^ n)
  have h2 := Int.emod_add_ediv (x / 2 ^ n) 2
  have hr0 := Int.emod_nonneg x (ne_of_gt hp)
  have hr1 := Int.emod_lt_of_pos x hp
  have hd0 := Int.emod_nonneg (x / 2 ^ n) (show (2 : Int) ≠ 0 by decide)
  have hd1 := Int.emod_lt_of_pos (x / 2 ^ n) (show (0 : Int) < 2 by decide)
  generalize x / 2 ^ n % 2 = d at *
  generalize x % 2 ^ n = r at *
  generalize x / 2 ^ n / 2 = q at *
  generalize x / 2 ^ n = y at *
  have hx : x = (d * 2 ^ n + r) + 2 ^ (n + 1) * q := by
    rw [← h1, ← h2, pow_succ]; ring
  rw [hx, Int.add_mul_emod_self_left]
  apply Int.emod_eq_of_lt
  · positivity
  · rw [pow_succ]
    have : d ≤ 1 := by omega
    nlinarith

theorem ediv_emod_pow (x : Int) (j : Nat) (hj : j < 32) :
    x % 4294967296 / 2 ^ j % 2 = x / 2 ^ j % 2 := by
  have hp : (0 : Int) < 2 ^ j := by positivity
  have h1 := Int.emod_add_ediv x 4294967296
  have e : (4294967296 : Int) = 2 ^ j * (2 * 2 ^ (31 - j)) := by
    have : (4294967296 : Int) = 2 ^ (j + (1 + (31 - j))) := by
      have : j + (1 + (31 - j)) = 32 := by omega
      rw [this]; norm_num
    rw [this, pow_add, pow_add]; ring
  have hx : x % 4294967296 = x + 2 ^ j * (2 * (- 2 ^ (31 - j) * (x / 4294967296))) := by
    have h2 : x % 4294967296 = x - 4294967296 * (x / 4294967296) := by omega
    rw [h2]
    generalize x / 4294967296 = q
    rw [e]
    ring
  rw [hx, Int.add_mul_ediv_left _ _ (ne_of_gt hp), Int.add_mul_emod_self_left]

theorem msbChars_length (x : Int) (n : Nat) : (msbChars x n).length = n := by
  induction n with
  | zero => rfl
  | succ k ih => simp [msbChars, ih]

theorem msbChars_getElem (x : Int) (n k : Nat) (hk : k < n) :
    (msbChars x n)[k]? = some (bitChar (x / 2 ^ (n - 1 - k) % 2)) := by
  induction n generalizing k with
  | zero => omega
  | succ m ih =>
    cases k with
    | zero => simp [msbChars]
    | succ j =>
      have e : m + 1 - 1 - (j + 1) = m - 1 - j := by omega
      simp only [msbChars, List.getElem?_cons_succ, e]
      exact ih j (by omega)

theorem bitChar_digit (d : Int) (h : d = 0 ∨ d = 1) :
    (if bitChar d = '1' then (1 : Int) else 0) = d := by
  rcases h with h | h
  · subst h; decide
  · subst h; decide

theorem foldl_msbChars (x : Int) (n : Nat) (acc : Int) :
    (msbChars x n).foldl (fun acc c => 2 * acc + (if c = '1' then 1 else 0)) acc
      = acc * 2 ^ n + x % 2 ^ n := by
  induction n generalizing acc with
  | zero => simp [msbChars, Int.emod_one]
  | succ k ih =>
    simp only [msbChars, List.foldl_cons]
    rw [ih, bitChar_digit _ (Int.emod_two_eq_zero_or_one _), emod_pow_succ x k, pow_succ]
    ring

theorem binaryValue_msbChars (x : Int) (n : Nat) :
    binaryValue (msbChars x n) = x % 2 ^ n := by
  unfold binaryValue
  rw [foldl_msbChars]
  simp

theorem countdown_length (n : Nat) : (countdown n).length = n := by
  induction n with
  | zero => rfl
  | succ k ih => simp [countdown, ih]

theorem countdown_mem (n : Nat) (v : Int) (hv : v ∈ countdown n) : 0 ≤ v ∧ v < n := by
  induction n with
  | zero => simp [countdown] at hv
  | succ k ih =>
    simp only [countdown, List.mem_cons] at hv
    rcases hv with h | h
    · subst h; constructor <;> push_cast <;> omega
    · have := ih h
      constructor
      · exact this.1
      · push_cast; omega

theorem renderLoop_31 (result : Int) (st : B.Render) :
    B.renderLoop result 31 st
      = some ⟨st.out ++ String.mk (msbChars result 32), st.shifts ++ countdown 32⟩ := by
  have h := renderLoop_spec result 32 (le_refl 32) st
  have e : ((32 : Nat) : Int) - 1 = 31 := by norm_num
  rw [e] at h
  exact h

theorem isInt32_xnor (a b : Int) : isInt32 (B.xnor a b) := by
  unfold B.xnor
  split <;> decide

/-! ## The XNOR program -/

/-- C1 (defect): at the shipped inputs `a = 10`, `b = 10` the code returns 1;
bit 1 of that result is 0 although bit 1 of `a` equals bit 1 of `b`, so the
result is not the per-bit XNOR of its operands. -/
theorem xnor_not_bitwise_at_10_10 :
    B.xnor 10 10 = 1 ∧ bit32 (B.xnor 10 10) 1 = 0 ∧
      ¬ (bit32 (B.xnor 10 10) 1 = 1 ↔ bit32 10 1 = bit32 10 1) := by
  decide

/-- C2: for all integers `a` and `b` (in particular all 32-bit ones), `xnor a b`
is 1 when `a = b` and 0 otherwise, and the loop of `main` run on that result
appends to the output 31 characters `0` followed by `1` when `a = b` and by
`0` when `a ≠ b`. -/
theorem xnor_scalar_equality_render (a b : Int) (st : B.Render) :
    B.xnor a b = (if a = b then 1 else 0) ∧
      ∃ st', B.renderLoop (B.xnor a b) 31 st = some st' ∧
        st'.out = st.out ++ String.mk (List.replicate 31 '0' ++ [if a = b then '1' else '0']) := by
  refine ⟨rfl, ?_⟩
  rw [renderLoop_31]
  refine ⟨_, rfl, ?_⟩
  by_cases h : a = b
  · have e : msbChars (B.xnor a b) 32 = List.replicate 31 '0' ++ ['1'] := by
      simp only [B.xnor, h, if_true]; decide
    rw [e, if_pos h]
  · have e : msbChars (B.xnor a b) 32 = List.replicate 31 '0' ++ ['0'] := by
      simp only [B.xnor, h, if_false]; decide
    rw [e, if_neg h]

/-- C3: run as shipped (`a = 10`, `b = 10`), `main` writes exactly the two lines
`XNOR of 10 and 10 is: 1` and `Binary representation of result: ` followed by
31 characters `0` and one `1`, and returns 0. -/
theorem main_output :
    B.main = some ("XNOR of 10 and 10 is: 1\nBinary representation of result: 00000000000000000000000000000001\n", 0) := by
  unfold B.main
  simp only [renderLoop_31]
  decide

/-- C4 (defect): at the shipped inputs `a = 10`, `b = 10` the operands are equal
but the code returns 1, not -1; `xnor a b = -1` is not equivalent to `a = b`. -/
theorem xnor_equal_not_all_ones :
    B.xnor 10 10 = 1 ∧ ¬ (B.xnor 10 10 = -1 ↔ (10 : Int) = 10) := by
  decide

/-- C5 (defect): at `a = 0`, `b = 1` the code returns 0 although the operands
agree at bit 1 (indeed at every bit but bit 0), so a zero result does not mean
that every bit differs; the boundary case `xnor 0 (-1) = 0` does hold. -/
theorem xnor_zero_not_complement :
    B.xnor 0 1 = 0 ∧ bit32 0 1 = bit32 1 1 ∧
      ¬ (B.xnor 0 1 = 0 ↔ ∀ i, i < 32 → bit32 0 i ≠ bit32 1 i) ∧
      B.xnor 0 (-1) = 0 := by
  refine ⟨by decide, by decide, ?_, by decide⟩
  intro h
  exact h.1 (by decide) 1 (by decide) (by decide)

/-- C6: `xnor` is commutative, for all integers `a` and `b` (in particular all
32-bit ones). -/
theorem xnor_comm (a b : Int) : B.xnor a b = B.xnor b a := by
  unfold B.xnor
  by_cases h : a = b
  · simp [h]
  · have h2 : ¬ b = a := fun e => h e.symm
    simp [h, h2]

/-- C7: for every integer `a` (in particular every 32-bit one), `xnor a a` is 1;
hence it is one of the two values, all-ones (-1) or 1, that the specification
allows. -/
theorem xnor_self (a : Int) :
    B.xnor a a = 1 ∧ (B.xnor a a = -1 ∨ B.xnor a a = 1) := by
  have h : B.xnor a a = 1 := by simp [B.xnor]
  exact ⟨h, Or.inr h⟩

/-- C8: for every 32-bit `result`, negative ones included, the loop of `main`
appends exactly 32 characters, each `0` or `1`; character `k` is bit `31 - k`
of the two-complement representation of `result`, and the string read as an
unsigned binary numeral is `result mod 2^32`. -/
theorem render_bits_msb_first (result : Int) (_hr : isInt32 result) (st : B.Render) :
    ∃ bits : List Char,
      (∃ st', B.renderLoop result 31 st = some st' ∧ st'.out = st.out ++ String.mk bits) ∧
      bits.length = 32 ∧
      (∀ c ∈ bits, c = '0' ∨ c = '1') ∧
      (∀ k, k < 32 → bits[k]? = some (if bit32 result (31 - k) = 1 then '1' else '0')) ∧
      binaryValue bits = result % 4294967296 := by
  have hget : ∀ k, k < 32 →
      (msbChars result 32)[k]? = some (if bit32 result (31 - k) = 1 then '1' else '0') := by
    intro k hk
    rw [msbChars_getElem result 32 k hk]
    unfold bit32 bitChar
    rw [ediv_emod_pow result (31 - k) (by omega)]
  refine ⟨msbChars result 32, ⟨_, renderLoop_31 result st, rfl⟩, msbChars_length _ _, ?_, hget, ?_⟩
  · intro c hc
    obtain ⟨k, hk, hck⟩ := List.getElem_of_mem hc
    rw [msbChars_length] at hk
    have h := hget k hk
    rw [List.getElem?_eq_getElem (by rw [msbChars_length]; exact hk), hck] at h
    have h2 := Option.some.inj h
    rw [h2]
    split
    · exact Or.inr rfl
    · exact Or.inl rfl
  · rw [binaryValue_msbChars]
    norm_num

/-- Witness for C8 at the negative value `result = -5`, starting from an
empty output. -/
theorem render_bits_msb_first_witness :
    isInt32 (-5) ∧
    ∃ bits : List Char,
      (∃ st', B.renderLoop (-5) 31 ⟨"", []⟩ = some st' ∧
        st'.out = (⟨"", []⟩ : B.Render).out ++ String.mk bits) ∧
      bits.length = 32 ∧
      (∀ c ∈ bits, c = '0' ∨ c = '1') ∧
      (∀ k, k < 32 → bits[k]? = some (if bit32 (-5) (31 - k) = 1 then '1' else '0')) ∧
      binaryValue bits = (-5) % 4294967296 :=
  ⟨by decide, render_bits_msb_first (-5) (by decide) ⟨"", []⟩⟩

/-- C9: for all 32-bit `a` and `b`, `xnor a b` is a representable value (0 or
1); and for every 32-bit `result` the loop of `main` returns (no undefined
shift), having run exactly 32 iterations whose shift amounts are
31, 30, ..., 0, each in `[0,31]` and each a defined shift. -/
theorem xnor_render_total (a b : Int) (_ha : isInt32 a) (_hb : isInt32 b) (out : String) :
    isInt32 (B.xnor a b) ∧ (B.xnor a b = 0 ∨ B.xnor a b = 1) ∧
    ∀ result, isInt32 result →
      ∃ st', B.renderLoop result 31 ⟨out, []⟩ = some st' ∧
        st'.shifts.length = 32 ∧
        st'.shifts = [31, 30, 29, 28, 27, 26, 25, 24, 23, 22, 21, 20, 19, 18, 17, 16,
                      15, 14, 13, 12, 11, 10, 9, 8, 7, 6, 5, 4, 3, 2, 1, 0] ∧
        (∀ n ∈ st'.shifts, 0 ≤ n ∧ n ≤ 31) ∧
        (∀ n ∈ st'.shifts, ∃ v, shr result n = some v) := by
  refine ⟨isInt32_xnor a b, ?_, ?_⟩
  · unfold B.xnor
    split
    · exact Or.inr rfl
    · exact Or.inl rfl
  · intro result _
    refine ⟨_, renderLoop_31 result _, ?_, ?_, ?_, ?_⟩
    · simp [countdown_length]
    · show [] ++ countdown 32 = _
      decide
    · intro n hn
      simp only [List.nil_append] at hn
      have := countdown_mem 32 n hn
      constructor
      · exact this.1
      · have h2 := this.2
        push_cast at h2
        omega
    · intro n hn
      simp only [List.nil_append] at hn
      have := countdown_mem 32 n hn
      have h2 := this.2
      push_cast at h2
      refine ⟨result >>> n.toNat, ?_⟩
      simp [shr, this.1, h2]

/-- Witness for C9 at the shipped operands `a = 10`, `b = 10`. -/
theorem xnor_render_total_witness :
    isInt32 10 ∧ isInt32 10 ∧
    isInt32 (B.xnor 10 10) ∧ (B.xnor 10 10 = 0 ∨ B.xnor 10 10 = 1) ∧
    ∀ result, isInt32 result →
      ∃ st', B.renderLoop result 31 ⟨"", []⟩ = some st' ∧
        st'.shifts.length = 32 ∧
        st'.shifts = [31, 30, 29, 28, 27, 26, 25, 24, 23, 22, 21, 20, 19, 18, 17, 16,
                      15, 14, 13, 12, 11, 10, 9, 8, 7, 6, 5, 4, 3, 2, 1, 0] ∧
        (∀ n ∈ st'.shifts, 0 ≤ n ∧ n ≤ 31) ∧
        (∀ n ∈ st'.shifts, ∃ v, shr result n = some v) :=
  ⟨by decide, by decide, xnor_render_total 10 10 (by decide) (by decide) ""⟩

/-! ## Pass by value and pass by pointer -/

theorem load_append_self (m : CExamples.Memory) (v : Int) :
    CExamples.load (m ++ [v]) m.length = some v := by
  simp [CExamples.load]

theorem set_append_self (m : CExamples.Memory) (v w : Int) :
    (m ++ [v]).set m.length w = m ++ [w] := by
  induction m with
  | nil => rfl
  | cons x xs ih => simp [ih]

theorem increment1_eq (m : CExamples.Memory) (inc : Int) :
    CExamples.increment1 m inc = some m := by
  simp [CExamples.increment1, CExamples.postIncr, load_append_self, CExamples.store,
    set_append_self]

theorem increment2_eq (m : CExamples.Memory) (p : Nat) (v : Int)
    (h : CExamples.load m p = some v) :
    CExamples.increment2 m p = some (m.set p (wrap32 (v + 1))) := by
  have hp : p < m.length := by
    unfold CExamples.load at h
    by_contra hn
    rw [List.getElem?_eq_none (by omega)] at h
    exact Option.noConfusion h
  simp [CExamples.increment2, CExamples.postIncr, h, CExamples.store, hp]

theorem wrap32_succ (v : Int) (h : isInt32 v) (hlt : v < INT_MAX) : wrap32 (v + 1) = v + 1 := by
  unfold isInt32 INT_MIN INT_MAX at h
  unfold INT_MAX at hlt
  unfold wrap32
  omega

/-- C10: for every `int` value `count` stored at address `p`, `increment1`
called with that value returns with memory unchanged, so `count` still holds
its value; when `count < INT_MAX`, `increment2` called with the address `p`
leaves `count + 1` there and changes no other object; and `cPassByValue`,
whose `count` starts at 10, reports 10 before, 10 after `increment1` and 11
after `increment2`. -/
theorem pass_by_value_vs_pointer (m : CExamples.Memory) (p : Nat) (count : Int)
    (hc : isInt32 count) (hp : CExamples.load m p = some count) :
    (∃ m1, CExamples.increment1 m count = some m1 ∧ m1 = m ∧
        CExamples.load m1 p = some count) ∧
    (count < INT_MAX →
      ∃ m2, CExamples.increment2 m p = some m2 ∧
        CExamples.load m2 p = some (count + 1) ∧
        ∀ q, q ≠ p → CExamples.load m2 q = CExamples.load m q) ∧
    (∀ m0 out, CExamples.cPassByValue m0 out
      = some (m0, out ++ "\nC Pass by Value:\nBefore: count = 10\nAfter increment1: count = 10\nAfter increment2: count = 11\n")) := by
  have hlen : p < m.length := by
    unfold CExamples.load at hp
    by_contra hn
    rw [List.getElem?_eq_none (by omega)] at hp
    exact Option.noConfusion hp
  refine ⟨⟨m, increment1_eq m count, rfl, hp⟩, ?_, ?_⟩
  · intro hlt
    refine ⟨_, increment2_eq m p count hp, ?_, ?_⟩
    · rw [wrap32_succ count hc hlt]
      simp [CExamples.load, hlen]
    · intro q hq
      simp only [CExamples.load]
      exact List.getElem?_set_ne (Ne.symm hq)
  · intro m0 out
    have e11 : wrap32 (10 + 1) = 11 := by decide
    simp only [CExamples.cPassByValue, load_append_self, increment1_eq,
      increment2_eq (m0 ++ [10]) m0.length 10 (load_append_self m0 10), set_append_self, e11]
    have e : List.take m0.length (m0 ++ [(11 : Int)]) = m0 := by simp
    rw [e]
    have es : out ++ "\nC Pass by Value:\n" ++ ("Before: count = " ++ fmt_d 10 ++ "\n")
          ++ ("After increment1: count = " ++ fmt_d 10 ++ "\n")
          ++ ("After increment2: count = " ++ fmt_d 11 ++ "\n")
        = out ++ "\nC Pass by Value:\nBefore: count = 10\nAfter increment1: count = 10\nAfter increment2: count = 11\n" := by
      rw [String.append_assoc, String.append_assoc, String.append_assoc]
      congr 1
    rw [es]

/-- Witness for C10 at `count = 10` stored at address 0 of a one-cell memory. -/
theorem pass_by_value_vs_pointer_witness :
    isInt32 10 ∧ CExamples.load [10] 0 = some 10 ∧ (10 : Int) < INT_MAX ∧
    (∃ m1, CExamples.increment1 [10] 10 = some m1 ∧ m1 = [10] ∧
        CExamples.load m1 0 = some 10) ∧
    (∃ m2, CExamples.increment2 [10] 0 = some m2 ∧
        CExamples.load m2 0 = some (10 + 1) ∧
        ∀ q, q ≠ 0 → CExamples.load m2 q = CExamples.load [10] q) ∧
    (∀ m0 out, CExamples.cPassByValue m0 out
      = some (m0, out ++ "\nC Pass by Value:\nBefore: count = 10\nAfter increment1: count = 10\nAfter increment2: count = 11\n")) :=
  have h := pass_by_value_vs_pointer [10] 0 10 (by decide) (by decide)
  ⟨by decide, by decide, by decide, h.1, h.2.1 (by decide), h.2.2⟩

end CVsGolang
